import Mathlib

/-!
Shallow embedding of the aggregation and scoring pipeline of
`analyze/process_data.py` (duplicated near-identically in
`analyze_data/analyze_bigram_prolific_study_data.py`).

Conventions of the embedding:
* numeric values (slider values, times, correctness counts, scores) are
  rationals; a missing value (pandas/NumPy `NaN`) is `none : Option ℚ`;
* `np.median` over a list that may contain `NaN` propagates the `NaN`
  (modern NumPy returns `nan` for slices containing `nan`), and the median
  of an empty list is `NaN`: both become `none`;
* `scipy.stats.median_abs_deviation` is used with its defaults
  (`scale = 1`, `nan_policy = propagate`): MAD(l) = median |x - median l|;
* Python string comparison (used by `sorted([chosen, unchosen])`) is
  lexicographic comparison of code points, embedded as `strLe`;
* pandas raises on an empty group (`iloc[0]`), and `determine_winner`
  hits an unbound local (`bigram1_wins`) when the unanimous winner matches
  neither canonical bigram, so the group resolvers return `Option`.
-/

namespace BigramExp

/-- Lexicographic comparison of code-point lists, as Python compares
strings. -/
def clistLe : List Char → List Char → Bool
  | [], _ => true
  | _ :: _, [] => false
  | a :: as, b :: bs =>
      if a.val < b.val then true
      else if b.val < a.val then false
      else clistLe as bs

/-- Python string `<=` on the underlying character sequences. -/
def strLe (a b : String) : Bool := clistLe a.data b.data

/-- Embedding of `tuple(sorted([x, y]))` from `process_data`
(`std_bigram_pair`): the canonical, order-independent pair key. -/
def stdPair (x y : String) : String × String :=
  if strLe x y then (x, y) else (y, x)

/-- Insertion of an element into a sorted list of rationals. -/
def insertSorted (x : ℚ) : List ℚ → List ℚ
  | [] => [x]
  | y :: ys => if x ≤ y then x :: y :: ys else y :: insertSorted x ys

/-- Insertion sort on rationals; `np.median` sorts its input
numerically, and any correct sort yields the same value sequence. -/
def sortQ : List ℚ → List ℚ
  | [] => []
  | x :: xs => insertSorted x (sortQ xs)

/-- Embedding of `np.median` on a list of present values: `none` on the
empty list (NumPy yields `nan`), otherwise the middle element of the
sorted list, or the mean of the two middle elements for even length. -/
def npMedian (l : List ℚ) : Option ℚ :=
  let s := sortQ l
  let n := l.length
  if n = 0 then none
  else if n % 2 = 1 then some (s.getD (n / 2) 0)
  else some ((s.getD (n / 2 - 1) 0 + s.getD (n / 2) 0) / 2)

/-- Embedding of `np.median` over values that may be missing: NumPy
propagates `NaN`, so any missing entry (or an empty list) gives `none`. -/
def npMedianOpt (l : List (Option ℚ)) : Option ℚ :=
  if l.any (fun x => x.isNone) then none else npMedian l.reduceOption

/-- Embedding of `scipy.stats.median_abs_deviation` with default scale:
the median of absolute deviations from the median; `none` on the empty
list (scipy yields `nan`). -/
def madList (l : List ℚ) : Option ℚ :=
  match npMedian l with
  | none => none
  | some m => npMedian (l.map (fun x => |x - m|))

/-- Embedding of `median_abs_deviation` with `nan_policy = propagate`: a
missing entry makes the result missing. -/
def madOpt (l : List (Option ℚ)) : Option ℚ :=
  if l.any (fun x => x.isNone) then none else madList l.reduceOption

/-- Subtraction on possibly-`NaN` floats: `NaN` propagates. -/
def optSub : Option ℚ → Option ℚ → Option ℚ
  | some x, some y => some (x - y)
  | _, _ => none

/-- Python `>=` on possibly-`NaN` floats: any comparison with `NaN` is
`False`. -/
def nanGe : Option ℚ → Option ℚ → Bool
  | some x, some y => decide (x ≥ y)
  | _, _ => false

/-- RawObservation: the fields of one trial row of the combined data
that the core pipeline reads (`chosenBigram`, `unchosenBigram`, times,
correctness, `sliderValue`, `user_id`). -/
structure RawObs where
  user_id : String
  chosenBigram : String
  unchosenBigram : String
  chosenBigramTime : Option ℚ
  unchosenBigramTime : Option ℚ
  chosenBigramCorrect : Option ℚ
  unchosenBigramCorrect : Option ℚ
  sliderValue : Option ℚ
deriving DecidableEq

/-- One row of `bigram_data` as produced by `process_data`
(ClassifiedObservation plus group attributes). -/
structure BDRow where
  user_id : String
  bigram1 : String
  bigram2 : String
  chosen_bigram : String
  unchosen_bigram : String
  chosen_bigram_time : Option ℚ
  unchosen_bigram_time : Option ℚ
  chosen_bigram_correct : Option ℚ
  unchosen_bigram_correct : Option ℚ
  sliderValue : Option ℚ
  is_consistent : Option Bool
  is_probable : Bool
  is_improbable : Bool
  group_size : Nat
deriving DecidableEq

/-- Group key used by `process_data`: `(user_id, std_bigram_pair)`. -/
def sameGroup (r s : RawObs) : Bool :=
  decide (s.user_id = r.user_id) &&
  decide (stdPair s.chosenBigram s.unchosenBigram
            = stdPair r.chosenBigram r.unchosenBigram)

/-- All rows of the data belonging to the same `(user_id, pair)` group
as `r` (the `groupby` partition containing `r`). -/
def groupRowsOf (data : List RawObs) (r : RawObs) : List RawObs :=
  data.filter (fun s => sameGroup r s)

/-- Consistency flag of `process_data`:
`len(set(group[chosenBigram])) == 1 if len(group) > 1 else None`. -/
def groupConsistency (g : List RawObs) : Option Bool :=
  if 1 < g.length then some (decide ((g.map (fun s => s.chosenBigram)).dedup.length = 1))
  else none

/-- Rendering of one raw observation into its `bigram_data` row, with
probable/improbable lookups (`probable_pairs` / `improbable_pairs` hold
the easy-choice tuples in `(good, bad)` and `(bad, good)` order) and the
group-level consistency flag and size. -/
def rowOf (data : List RawObs) (easy : List (String × String)) (r : RawObs) : BDRow :=
  let p := stdPair r.chosenBigram r.unchosenBigram
  let g := groupRowsOf data r
  { user_id := r.user_id
    bigram1 := p.1
    bigram2 := p.2
    chosen_bigram := r.chosenBigram
    unchosen_bigram := r.unchosenBigram
    chosen_bigram_time := r.chosenBigramTime
    unchosen_bigram_time := r.unchosenBigramTime
    chosen_bigram_correct := r.chosenBigramCorrect
    unchosen_bigram_correct := r.unchosenBigramCorrect
    sliderValue := r.sliderValue
    is_consistent := groupConsistency g
    is_probable := easy.any (fun q => decide (q.1 = r.chosenBigram) && decide (q.2 = r.unchosenBigram))
    is_improbable := easy.any (fun q => decide (q.2 = r.chosenBigram) && decide (q.1 = r.unchosenBigram))
    group_size := g.length }

/-- Embedding of `process_data` restricted to the fields the later
stages read: every raw row becomes one classified row (the dead
`remove_pairs` / `filter_intro` branches of the source are disabled by
their own flags, so `data_filtered = data`). Row order differs from the
sorted output of the source, which no claim here depends on. -/
def processData (data : List RawObs) (easy : List (String × String)) : List BDRow :=
  data.map (rowOf data easy)

/-- Subset `consistent_choices` of `process_data`:
`is_consistent == True` and `group_size > 1`. -/
def consistentChoices (bd : List BDRow) : List BDRow :=
  bd.filter (fun r => decide (r.is_consistent = some true) && decide (1 < r.group_size))

/-- Subset `inconsistent_choices` of `process_data`:
`is_consistent == False` and `group_size > 1`. -/
def inconsistentChoices (bd : List BDRow) : List BDRow :=
  bd.filter (fun r => decide (r.is_consistent = some false) && decide (1 < r.group_size))

/-- Per-user counter `total_choices` (`value_counts` of `user_id`). -/
def totalChoices (bd : List BDRow) (u : String) : Nat :=
  (bd.filter (fun r => decide (r.user_id = u))).length

/-- Per-user counter `consistent_choices` in `user_stats`. -/
def consistentCount (bd : List BDRow) (u : String) : Nat :=
  ((consistentChoices bd).filter (fun r => decide (r.user_id = u))).length

/-- Per-user counter `inconsistent_choices` in `user_stats`. -/
def inconsistentCount (bd : List BDRow) (u : String) : Nat :=
  ((inconsistentChoices bd).filter (fun r => decide (r.user_id = u))).length

/-- Per-user counter `total_consistency_choices` in `user_stats`: rows
of the user belonging to a group of size greater than one. -/
def totalConsistencyChoices (bd : List BDRow) (u : String) : Nat :=
  (bd.filter (fun r => decide (r.user_id = u) && decide (1 < r.group_size))).length

/-- One row of `scored_bigram_data`, the output of `determine_score` for
one `(user_id, bigram_pair)` group. The score can be missing (`NaN`)
when the unanimous-case median runs over an empty list. -/
structure ScoredRow where
  user_id : String
  bigram1 : String
  bigram2 : String
  chosen_bigram_winner : String
  unchosen_bigram_winner : String
  chosen_bigram_time_median : Option ℚ
  unchosen_bigram_time_median : Option ℚ
  chosen_bigram_correct_total : ℚ
  unchosen_bigram_correct_total : ℚ
  score : Option ℚ
  is_consistent : Bool
  is_probable : Bool
  is_improbable : Bool
  group_size : Nat
deriving DecidableEq

/-- Split-case sum of `determine_score`:
`sum(abs(x) for i, x in enumerate(slider_values)
 if chosen_bigrams.iloc[i] == b and not np.isnan(x))`. -/
def absSumFor (b : String) : List BDRow → ℚ
  | [] => 0
  | r :: t =>
      (if r.chosen_bigram = b then
        (match r.sliderValue with
         | some x => |x|
         | none => 0)
       else 0) + absSumFor b t

/-- Embedding of `determine_score`: collapses one `(user, pair)` group
of `bigram_data` rows into one scored row. `none` on the empty group
(pandas `iloc[0]` would raise; `groupby` never passes an empty group). -/
def determineScore (g : List BDRow) : Option ScoredRow :=
  match g with
  | [] => none
  | g0 :: _ =>
    let bigram1 := g0.bigram1
    let bigram2 := g0.bigram2
    let unanimous : Bool := decide ((g.map (fun r => r.chosen_bigram)).dedup.length = 1)
    let sum1 := absSumFor bigram1 g
    let sum2 := absSumFor bigram2 g
    let cw := if unanimous then g0.chosen_bigram
              else if sum1 ≥ sum2 then bigram1 else bigram2
    let sc : Option ℚ :=
      if unanimous then
        (npMedian ((g.filterMap (fun r => r.sliderValue)).map (fun x => |x|))).map
          (fun m => m / 100)
      else some (|sum1 - sum2| / (g.length : ℚ) / 100)
    some
      { user_id := g0.user_id
        bigram1 := bigram1
        bigram2 := bigram2
        chosen_bigram_winner := cw
        unchosen_bigram_winner := if cw = bigram1 then bigram2 else bigram1
        chosen_bigram_time_median := npMedian (g.filterMap (fun r => r.chosen_bigram_time))
        unchosen_bigram_time_median := npMedian (g.filterMap (fun r => r.unchosen_bigram_time))
        chosen_bigram_correct_total := (g.filterMap (fun r => r.chosen_bigram_correct)).sum
        unchosen_bigram_correct_total := (g.filterMap (fun r => r.unchosen_bigram_correct)).sum
        score := sc
        is_consistent := unanimous
        is_probable := g0.is_probable
        is_improbable := g0.is_improbable
        group_size := g.length }

/-- Column selection applied by `score_user_choices_by_slider_values`
to the scored table. -/
def scored_column_order : List String :=
  ["user_id", "bigram_pair", "bigram1", "bigram2",
   "chosen_bigram_winner", "unchosen_bigram_winner",
   "chosen_bigram_time_median", "unchosen_bigram_time_median",
   "chosen_bigram_correct_total", "unchosen_bigram_correct_total",
   "score", "text", "is_consistent", "is_probable", "is_improbable", "group_size"]

/-- One row of `bigram_winner_data` as built by `determine_winner`,
before the column selection of `choose_bigram_winners`. -/
structure WinnerRow where
  winner_bigram : String
  loser_bigram : String
  median_score : Option ℚ
  mad_score : Option ℚ
  chosen_bigram_time_median : Option ℚ
  unchosen_bigram_time_median : Option ℚ
  chosen_bigram_correct_total : ℚ
  unchosen_bigram_correct_total : ℚ
  is_consistent : Bool
  is_probable : Bool
  is_improbable : Bool
  group_size : Nat
deriving DecidableEq

/-- Scores of the rows whose per-user winner is `b`
(`[x for i, x in enumerate(scores) if chosen_bigrams.iloc[i] == b]`);
entries may be missing. -/
def scoresFor (b : String) (g : List ScoredRow) : List (Option ℚ) :=
  (g.filter (fun r => decide (r.chosen_bigram_winner = b))).map (fun r => r.score)

/-- Float sum of absolute values over possibly-`NaN` entries: one `NaN`
term makes the Python `sum(...)` `NaN`. -/
def optAbsSum (l : List (Option ℚ)) : Option ℚ :=
  if l.any (fun x => x.isNone) then none
  else some ((l.reduceOption.map (fun x => |x|)).sum)

/-- Signed list built by the split case of `determine_winner`: `abs(x)`
for rows won by `bigram1`, `-abs(x)` for rows won by `bigram2`, other
rows skipped; a `NaN` score stays `NaN`. -/
def signedOptList (b1 b2 : String) (g : List ScoredRow) : List (Option ℚ) :=
  g.filterMap (fun r =>
    if r.chosen_bigram_winner = b1 then some (r.score.map (fun x => |x|))
    else if r.chosen_bigram_winner = b2 then some (r.score.map (fun x => -|x|))
    else none)

/-- Helper of `determine_winner`: `np.median` over the values of column
`f` restricted to rows whose per-user winner is `b` (no `NaN` skipping
in the source; an empty selection is `NaN`). -/
def sideMedian (b : String) (f : ScoredRow → Option ℚ) (g : List ScoredRow) : Option ℚ :=
  npMedianOpt ((g.filter (fun r => decide (r.chosen_bigram_winner = b))).map f)

/-- Helper of `determine_winner`: `np.sum` over the values of column `f`
restricted to rows whose per-user winner is `b`. -/
def sideSum (b : String) (f : ScoredRow → ℚ) (g : List ScoredRow) : ℚ :=
  ((g.filter (fun r => decide (r.chosen_bigram_winner = b))).map f).sum

/-- Embedding of `determine_winner`: collapses all scored rows of one
`bigram_pair` into one verdict row. `none` on the empty group, and in
the unanimous case when the sole winner matches neither canonical bigram
(the source would hit an unbound `bigram1_wins`). -/
def determineWinner (g : List ScoredRow) : Option WinnerRow :=
  match g with
  | [] => none
  | g0 :: _ =>
    let b1 := g0.bigram1
    let b2 := g0.bigram2
    let dl := (g.map (fun r => r.chosen_bigram_winner)).dedup
    let branch : Option (Bool × Option ℚ × Option ℚ) :=
      if dl.length = 1 then
        let w := dl.headD ""
        let m := npMedianOpt (g.map (fun r => r.score.map (fun x => |x|)))
        let md := madOpt (g.map (fun r => r.score.map (fun x => |x|)))
        if w = b1 then some (true, m, md)
        else if w = b2 then some (false, m, md)
        else none
      else
        let s1 := optAbsSum (scoresFor b1 g)
        let s2 := optAbsSum (scoresFor b2 g)
        some (nanGe s1 s2,
              (optSub s1 s2).map (fun d => |d| / (g.length : ℚ)),
              madOpt (signedOptList b1 b2 g))
    branch.map (fun t =>
      { winner_bigram := if t.1 then b1 else b2
        loser_bigram := if t.1 then b2 else b1
        median_score := t.2.1
        mad_score := t.2.2
        chosen_bigram_time_median :=
          if t.1 then sideMedian b1 (fun r => r.chosen_bigram_time_median) g
          else sideMedian b2 (fun r => r.chosen_bigram_time_median) g
        unchosen_bigram_time_median :=
          if t.1 then sideMedian b1 (fun r => r.unchosen_bigram_time_median) g
          else sideMedian b2 (fun r => r.unchosen_bigram_time_median) g
        chosen_bigram_correct_total :=
          if t.1 then sideSum b1 (fun r => r.chosen_bigram_correct_total) g
          else sideSum b2 (fun r => r.chosen_bigram_correct_total) g
        unchosen_bigram_correct_total :=
          if t.1 then sideSum b1 (fun r => r.unchosen_bigram_correct_total) g
          else sideSum b2 (fun r => r.unchosen_bigram_correct_total) g
        is_consistent := g.all (fun r => r.is_consistent)
        is_probable := g0.is_probable
        is_improbable := g0.is_improbable
        group_size := (g.map (fun r => r.group_size)).sum })

/-- Column selection applied by `choose_bigram_winners` to the verdict
table before saving and returning it. -/
def winner_column_order : List String :=
  ["bigram_pair", "winner_bigram", "loser_bigram", "median_score", "mad_score",
   "chosen_bigram_time_median", "unchosen_bigram_time_median",
   "chosen_bigram_correct_total", "unchosen_bigram_correct_total",
   "is_consistent", "is_probable", "is_improbable", "text"]

/-- Total of `|sliderValue|` over all rows of a group, missing values
contributing `0`; dominates both split-case sums of `determine_score`. -/
def absSliderTotal : List BDRow → ℚ
  | [] => 0
  | r :: t =>
      (match r.sliderValue with
       | some x => |x|
       | none => 0) + absSliderTotal t

/-- Clean split-case sum of `determine_winner` when every contributing
score is present: the sum of `|score|` over the rows won by `b`. -/
def cleanAbsSumFor (b : String) (g : List ScoredRow) : ℚ :=
  (((g.filter (fun r => decide (r.chosen_bigram_winner = b))).filterMap
      (fun r => r.score)).map (fun x => |x|)).sum

/-- Clean signed list of the split case of `determine_winner` when every
contributing score is present. -/
def cleanSigned (b1 b2 : String) (g : List ScoredRow) : List ℚ :=
  g.filterMap (fun r =>
    match r.score with
    | none => none
    | some x =>
        if r.chosen_bigram_winner = b1 then some |x|
        else if r.chosen_bigram_winner = b2 then some (-|x|)
        else none)

/-- Concrete split-case row: user u1 chose th over he at slider 30
(spec scenario for the split case). -/
def rowSplitTH : BDRow :=
  { user_id := "u1", bigram1 := "he", bigram2 := "th",
    chosen_bigram := "th", unchosen_bigram := "he",
    chosen_bigram_time := none, unchosen_bigram_time := none,
    chosen_bigram_correct := none, unchosen_bigram_correct := none,
    sliderValue := some 30, is_consistent := some false,
    is_probable := false, is_improbable := false, group_size := 2 }

/-- Concrete split-case row: the same user chose he over th at slider
50 on the repeat. -/
def rowSplitHE : BDRow :=
  { rowSplitTH with chosen_bigram := "he", unchosen_bigram := "th", sliderValue := some 50 }

/-- Concrete unanimous-case row: th chosen over he at slider -40. -/
def rowUnanTH1 : BDRow :=
  { rowSplitTH with sliderValue := some (-40), is_consistent := some true }

/-- Concrete unanimous-case row: th chosen over he at slider -60. -/
def rowUnanTH2 : BDRow :=
  { rowUnanTH1 with sliderValue := some (-60) }

/-- Concrete split-case row with a missing slider value (th side). -/
def rowNoSliderTH : BDRow :=
  { rowSplitTH with sliderValue := none }

/-- Concrete split-case row with a missing slider value (he side). -/
def rowNoSliderHE : BDRow :=
  { rowSplitHE with sliderValue := none }

/-- Concrete raw observation forming a singleton (user, pair) group. -/
def obsSingle : RawObs :=
  { user_id := "u1", chosenBigram := "ab", unchosenBigram := "cd",
    chosenBigramTime := none, unchosenBigramTime := none,
    chosenBigramCorrect := none, unchosenBigramCorrect := none,
    sliderValue := some 10 }

/-- Concrete raw observation: the user chose fr over vr (the probable
direction of the easy-choice pair (fr, vr)). -/
def obsProbFR : RawObs :=
  { user_id := "u1", chosenBigram := "fr", unchosenBigram := "vr",
    chosenBigramTime := none, unchosenBigramTime := none,
    chosenBigramCorrect := none, unchosenBigramCorrect := none,
    sliderValue := some 10 }

/-- Concrete raw observation: the same user chose vr over fr on the
repeat (the improbable direction of the same easy-choice pair). -/
def obsImprVR : RawObs :=
  { obsProbFR with chosenBigram := "vr", unchosenBigram := "fr" }

/-- Concrete raw observation: a repeat of the fr-over-vr choice at a
different slider value. -/
def obsProbFR2 : RawObs :=
  { obsProbFR with sliderValue := some 20 }

/-- Concrete easy-choice reference list containing the single pair
(fr, vr). -/
def easyFV : List (String × String) := [("fr", "vr")]

/-- Concrete scored row: user u1, pair (ab, cd), winner ab, score 0.3. -/
def scoredPresent : ScoredRow :=
  { user_id := "u1", bigram1 := "ab", bigram2 := "cd",
    chosen_bigram_winner := "ab", unchosen_bigram_winner := "cd",
    chosen_bigram_time_median := none, unchosen_bigram_time_median := none,
    chosen_bigram_correct_total := 0, unchosen_bigram_correct_total := 0,
    score := some (3/10), is_consistent := true,
    is_probable := false, is_improbable := false, group_size := 2 }

/-- Concrete scored row for the same pair with a missing (`NaN`) score,
same winner ab. -/
def scoredMissing : ScoredRow :=
  { scoredPresent with user_id := "u2", score := none }

/-- Concrete scored row: another user, winner ab, score 0.2. -/
def scoredSplitA : ScoredRow :=
  { scoredPresent with score := some (2/10) }

/-- Concrete scored row: another user, same pair, winner cd, score 0.4. -/
def scoredSplitB : ScoredRow :=
  { scoredPresent with
    user_id := "u2"
    chosen_bigram_winner := "cd"
    unchosen_bigram_winner := "ab"
    score := some (4/10) }

end BigramExp

namespace BigramExp

/-- Inserting into a list grows its length by one. -/
theorem length_insertSorted (x : ℚ) (l : List ℚ) :
    (insertSorted x l).length = l.length + 1 := by
  induction l with
  | nil => rfl
  | cons y ys ih =>
      by_cases h : x ≤ y <;> simp [insertSorted, h, ih]

/-- Members of an insertion are the new element or old members. -/
theorem mem_insertSorted {y x : ℚ} {l : List ℚ} (h : y ∈ insertSorted x l) :
    y = x ∨ y ∈ l := by
  induction l with
  | nil => simp [insertSorted] at h; exact Or.inl h
  | cons z zs ih =>
      by_cases hz : x ≤ z
      · simpa [insertSorted, hz, or_assoc] using h
      · simp only [insertSorted, hz, if_false, List.mem_cons] at h
        rcases h with h | h
        · exact Or.inr (by simp [h])
        · rcases ih h with h | h
          · exact Or.inl h
          · exact Or.inr (List.mem_cons_of_mem _ h)

/-- Sorting preserves length. -/
theorem length_sortQ (l : List ℚ) : (sortQ l).length = l.length := by
  induction l with
  | nil => rfl
  | cons x xs ih => simp [sortQ, length_insertSorted, ih]

/-- Members of the sorted list are members of the original list. -/
theorem mem_sortQ {y : ℚ} {l : List ℚ} (h : y ∈ sortQ l) : y ∈ l := by
  induction l with
  | nil => simp [sortQ] at h
  | cons x xs ih =>
      rcases mem_insertSorted h with h | h
      · simp [h]
      · exact List.mem_cons_of_mem _ (ih h)

/-- The median of a nonempty list exists. -/
theorem npMedian_isSome {l : List ℚ} (h : l ≠ []) : ∃ m, npMedian l = some m := by
  have hn : l.length ≠ 0 := by simpa using h
  unfold npMedian
  simp only [hn, if_false]
  by_cases hp : l.length % 2 = 1 <;> simp [hp]

/-- The median of a nonempty list lies between any bounds enclosing all
its elements. -/
theorem npMedian_bounds {l : List ℚ} {lo hi m : ℚ}
    (hb : ∀ x ∈ l, lo ≤ x ∧ x ≤ hi) (hm : npMedian l = some m) :
    lo ≤ m ∧ m ≤ hi := by
  have hbs : ∀ x ∈ sortQ l, lo ≤ x ∧ x ≤ hi := fun x hx => hb x (mem_sortQ hx)
  have hlen := length_sortQ l
  unfold npMedian at hm
  by_cases hn : l.length = 0
  · simp [hn] at hm
  · simp only [hn, if_false] at hm
    have hpos : 0 < l.length := Nat.pos_of_ne_zero hn
    have hget : ∀ i, i < l.length → lo ≤ (sortQ l).getD i 0 ∧ (sortQ l).getD i 0 ≤ hi := by
      intro i hi2
      have hi3 : i < (sortQ l).length := by rw [hlen]; exact hi2
      rw [List.getD_eq_getElem _ _ hi3]
      exact hbs _ (List.getElem_mem hi3)
    by_cases hp : l.length % 2 = 1
    · simp only [hp, if_true, Option.some_inj] at hm
      subst hm
      exact hget _ (Nat.div_lt_self hpos (by omega))
    · simp only [hp, if_false, Option.some_inj] at hm
      subst hm
      have h2 : 2 ≤ l.length := by omega
      have ha := hget (l.length / 2 - 1) (by omega)
      have hb2 := hget (l.length / 2) (Nat.div_lt_self hpos (by omega))
      constructor
      · have := ha.1
        have := hb2.1
        linarith
      · have := ha.2
        have := hb2.2
        linarith

/-- A `filterMap` over a list whose images are all present keeps the
length. -/
theorem filterMap_length_of_all_some {α β : Type} {f : α → Option β} {l : List α}
    (h : ∀ a ∈ l, ∃ x, f a = some x) :
    (l.filterMap f).length = l.length := by
  induction l with
  | nil => rfl
  | cons a t ih =>
      obtain ⟨x, hx⟩ := h a (List.mem_cons_self a t)
      rw [List.filterMap_cons, hx]
      simp only [List.length_cons]
      rw [ih (fun b hb => h b (List.mem_cons_of_mem a hb))]

/-- Counting two disjoint properties that both imply a third is bounded
by the count of the third. -/
theorem countP_pair_le {α : Type} (l : List α) (p q s : α → Bool)
    (hp : ∀ a, p a = true → s a = true) (hq : ∀ a, q a = true → s a = true)
    (hpq : ∀ a, ¬(p a = true ∧ q a = true)) :
    l.countP p + l.countP q ≤ l.countP s := by
  induction l with
  | nil => simp
  | cons a t ih =>
      simp only [List.countP_cons]
      by_cases hpa : p a = true
      · have hsa : s a = true := hp a hpa
        have hqa : q a = false := by
          rcases Bool.eq_false_or_eq_true (q a) with h | h
          · exact absurd ⟨hpa, h⟩ (hpq a)
          · exact h
        rw [hpa, hsa, hqa]
        simp only [if_true, Bool.false_eq_true, if_false]
        omega
      · have hpa2 : p a = false := Bool.not_eq_true _ |>.mp hpa
        by_cases hqa : q a = true
        · have hsa : s a = true := hq a hqa
          rw [hpa2, hsa, hqa]
          simp only [if_true, Bool.false_eq_true, if_false]
          omega
        · have hqa2 : q a = false := Bool.not_eq_true _ |>.mp hqa
          rw [hpa2, hqa2]
          simp only [Bool.false_eq_true, if_false]
          rcases Bool.eq_false_or_eq_true (s a) with hsa | hsa <;>
            rw [hsa] <;> simp only [if_true, Bool.false_eq_true, if_false] <;> omega

/-- Counting a stronger property is bounded by counting a weaker one. -/
theorem countP_le_countP {α : Type} (l : List α) (p q : α → Bool)
    (h : ∀ a, p a = true → q a = true) : l.countP p ≤ l.countP q := by
  induction l with
  | nil => simp
  | cons a t ih =>
      simp only [List.countP_cons]
      by_cases hpa : p a = true
      · rw [hpa, h a hpa]
        simp only [if_true]
        omega
      · have hpa2 : p a = false := Bool.not_eq_true _ |>.mp hpa
        rw [hpa2]
        simp only [Bool.false_eq_true, if_false]
        rcases Bool.eq_false_or_eq_true (q a) with hqa | hqa <;>
          rw [hqa] <;> simp only [if_true, Bool.false_eq_true, if_false] <;> omega

/-- The canonical pair determines the unchosen bigram once the chosen
one is fixed. -/
theorem stdPair_right_inj {c u1 u2 : String} (h : stdPair c u1 = stdPair c u2) :
    u1 = u2 := by
  unfold stdPair at h
  by_cases h1 : strLe c u1 = true <;> by_cases h2 : strLe c u2 = true <;>
    simp only [h1, h2, if_true, if_false, Bool.false_eq_true, Prod.mk.injEq] at h
  · exact h.2
  · exact h.2.trans h.1
  · exact h.1.trans h.2
  · exact h.1

/-- C10: for every user record of the reliability table built by
`process_data`, `consistent_choices + inconsistent_choices` is at most
`total_consistency_choices` (which counts exactly the rows of that user
in groups of size greater than one), which in turn is at most
`total_choices`. All four counters are total counts, so an empty
category yields `0`, never a missing value. -/
theorem claim_C10_reliability_counters (data : List RawObs)
    (easy : List (String × String)) (u : String) :
    consistentCount (processData data easy) u
        + inconsistentCount (processData data easy) u
      ≤ totalConsistencyChoices (processData data easy) u ∧
    totalConsistencyChoices (processData data easy) u
      ≤ totalChoices (processData data easy) u := by
  constructor
  · unfold consistentCount inconsistentCount consistentChoices inconsistentChoices
      totalConsistencyChoices
    rw [List.filter_filter, List.filter_filter,
        ← List.countP_eq_length_filter, ← List.countP_eq_length_filter,
        ← List.countP_eq_length_filter]
    refine countP_pair_le _ _ _ _ ?_ ?_ ?_
    · intro a ha
      simp only [Bool.and_eq_true, decide_eq_true_eq] at ha ⊢
      exact ⟨ha.1, ha.2.2⟩
    · intro a ha
      simp only [Bool.and_eq_true, decide_eq_true_eq] at ha ⊢
      exact ⟨ha.1, ha.2.2⟩
    · intro a ha
      simp only [Bool.and_eq_true, decide_eq_true_eq] at ha
      rw [ha.1.2.1] at ha
      exact Option.noConfusion (ha.2.2.1) (fun hb => Bool.noConfusion hb)
  · unfold totalConsistencyChoices totalChoices
    rw [← List.countP_eq_length_filter, ← List.countP_eq_length_filter]
    refine countP_le_countP _ _ _ ?_
    intro a ha
    simp only [Bool.and_eq_true] at ha
    exact ha.1

/-- C9 (counterexample): the column selection that
`choose_bigram_winners` applies to the verdict table does not contain a
`group_size` column, so the output rows carry no such field even though
`determine_winner` computes one. -/
theorem claim_C9_counterexample : "group_size" ∉ winner_column_order := by decide

/-- C9 (amended): `determine_winner` computes, for every pair group, a
`group_size` equal to the sum of the `group_size` values of the
contributing scored rows, but `choose_bigram_winners` drops that column
from the returned table. -/
theorem claim_C9_group_size_sum (g : List ScoredRow) (v : WinnerRow)
    (h : determineWinner g = some v) :
    v.group_size = (g.map (fun r => r.group_size)).sum := by
  cases g with
  | nil => simp [determineWinner] at h
  | cons g0 rest =>
      simp only [determineWinner] at h
      rcases Option.map_eq_some'.mp h with ⟨t, _, hft⟩
      rw [← hft]

/-- C9 (witness): a concrete one-row pair group whose verdict carries a
`group_size` of 2, the contributing row's repeat count. -/
theorem claim_C9_witness :
    ∃ v, determineWinner [scoredPresent] = some v ∧ v.group_size = 2 := by
  obtain ⟨v, hv⟩ : ∃ v, determineWinner [scoredPresent] = some v := ⟨_, rfl⟩
  exact ⟨v, hv, by rw [claim_C9_group_size_sum [scoredPresent] v hv]; rfl⟩

/-- C4 (amended): a (user, pair) group of size one has a `null`
consistency flag in `bigram_data` and its rows appear in neither the
consistent nor the inconsistent subset; however `determine_score`
recomputes the flag without the size guard, so the scored row of a
singleton group carries `is_consistent = true`, not `null`. -/
theorem claim_C4_singleton_consistency :
    (∀ (data : List RawObs) (easy : List (String × String)) (r : RawObs),
        (rowOf data easy r).group_size = 1 → (rowOf data easy r).is_consistent = none) ∧
    (∀ (bd : List BDRow) (row : BDRow), row.group_size = 1 →
        row ∉ consistentChoices bd ∧ row ∉ inconsistentChoices bd) ∧
    (∀ row : BDRow,
        (determineScore [row]).map (fun s => s.is_consistent) = some true) := by
  refine ⟨?_, ?_, ?_⟩
  · intro data easy r h
    simp only [rowOf] at h ⊢
    simp [groupConsistency, h]
  · intro bd row h
    constructor
    · intro hmem
      have h2 := (List.mem_filter.mp hmem).2
      simp only [Bool.and_eq_true, decide_eq_true_eq] at h2
      omega
    · intro hmem
      have h2 := (List.mem_filter.mp hmem).2
      simp only [Bool.and_eq_true, decide_eq_true_eq] at h2
      omega
  · intro row
    have hd : ([row.chosen_bigram]).dedup = [row.chosen_bigram] :=
      List.dedup_cons_of_not_mem (List.not_mem_nil _)
    simp [determineScore, hd]

/-- C4 (witness): for a concrete singleton group, the grouper flag is
`null`, the row is excluded from the consistent subset, and the
recomputed scored-row flag is `true`. -/
theorem claim_C4_witness :
    (rowOf [obsSingle] [] obsSingle).is_consistent = none ∧
    rowOf [obsSingle] [] obsSingle ∉ consistentChoices (processData [obsSingle] []) ∧
    (determineScore [rowOf [obsSingle] [] obsSingle]).map (fun s => s.is_consistent)
      = some true := by
  refine ⟨claim_C4_singleton_consistency.1 [obsSingle] [] obsSingle (by decide),
    (claim_C4_singleton_consistency.2.1 (processData [obsSingle] [])
      (rowOf [obsSingle] [] obsSingle) (by decide)).1,
    claim_C4_singleton_consistency.2.2 _⟩

/-- C4 (counterexample): on a concrete singleton group the consistency
flag of the classified row is `null`, while the scored row produced by
`determine_score` for the same group carries `is_consistent = true`:
the scored-row flag is not recomputed identically to the grouper. -/
theorem claim_C4_counterexample :
    ((processData [obsSingle] []).map (fun r => r.is_consistent)) = [none] ∧
    (determineScore (processData [obsSingle] [])).map (fun s => s.is_consistent)
      = some true := by
  constructor
  · decide
  · decide

/-- C5 (amended): the probable/improbable flags agree between two rows
of the same (user, pair) group whenever the rows chose the same bigram;
in a split group over an easy-choice pair they can differ, so the
first-row lookup of the resolvers does lose information there. -/
theorem claim_C5_flags_invariant_same_choice (data : List RawObs)
    (easy : List (String × String)) (r s : RawObs)
    (hp : stdPair r.chosenBigram r.unchosenBigram
            = stdPair s.chosenBigram s.unchosenBigram)
    (hc : r.chosenBigram = s.chosenBigram) :
    (rowOf data easy r).is_probable = (rowOf data easy s).is_probable ∧
    (rowOf data easy r).is_improbable = (rowOf data easy s).is_improbable := by
  rw [hc] at hp
  have hu : r.unchosenBigram = s.unchosenBigram := stdPair_right_inj hp
  constructor <;> simp [rowOf, hc, hu]

/-- C5 (witness): two concrete rows of one group with the same chosen
bigram carry identical probable/improbable flags. -/
theorem claim_C5_witness :
    (rowOf [obsProbFR, obsProbFR2] easyFV obsProbFR).is_probable
      = (rowOf [obsProbFR, obsProbFR2] easyFV obsProbFR2).is_probable ∧
    (rowOf [obsProbFR, obsProbFR2] easyFV obsProbFR).is_improbable
      = (rowOf [obsProbFR, obsProbFR2] easyFV obsProbFR2).is_improbable :=
  claim_C5_flags_invariant_same_choice [obsProbFR, obsProbFR2] easyFV
    obsProbFR obsProbFR2 (by decide) (by decide)

/-- Members of a group with an empty present-slider list all have a
missing slider, so both split-case sums vanish. -/
theorem absSumFor_of_none {g : List BDRow} (h : ∀ r ∈ g, r.sliderValue = none)
    (b : String) : absSumFor b g = 0 := by
  induction g with
  | nil => rfl
  | cons r t ih =>
      have hr := h r (List.mem_cons_self r t)
      have ht := ih (fun x hx => h x (List.mem_cons_of_mem r hx))
      simp [absSumFor, hr, ht]

/-- C1: in the split case (two distinct chosen bigrams in the group),
`determine_score` sums `|sliderValue|` over the non-missing rows of each
canonical bigram, declares the bigram with the larger sum the winner —
an exact tie going to `bigram1`, the lexicographically smaller canonical
bigram — and scores `|sum1 - sum2| / group_size / 100`. -/
theorem claim_C1_split_case (g : List BDRow) (g0 : BDRow) (rest : List BDRow)
    (hg : g = g0 :: rest)
    (hsplit : ((g.map (fun r => r.chosen_bigram)).dedup).length = 2)
    (hord : strLe g0.bigram1 g0.bigram2 = true) :
    ∃ s, determineScore g = some s ∧
      s.chosen_bigram_winner =
        (if absSumFor g0.bigram1 g ≥ absSumFor g0.bigram2 g then g0.bigram1
         else g0.bigram2) ∧
      (absSumFor g0.bigram1 g = absSumFor g0.bigram2 g →
        s.chosen_bigram_winner = g0.bigram1 ∧ strLe g0.bigram1 g0.bigram2 = true) ∧
      s.score = some (|absSumFor g0.bigram1 g - absSumFor g0.bigram2 g|
                        / (g.length : ℚ) / 100) := by
  subst hg
  have hu : (decide (((((g0 :: rest)).map (fun r => r.chosen_bigram)).dedup).length = 1))
      = false := by rw [hsplit]; rfl
  refine ⟨_, rfl, ?_, ?_, ?_⟩
  · simp only [hu, Bool.false_eq_true, if_false]
  · intro heq
    refine ⟨?_, hord⟩
    simp only [hu, Bool.false_eq_true, if_false]
    rw [if_pos (ge_of_eq heq)]
  · simp only [hu, Bool.false_eq_true, if_false]

/-- C1 (witness): the spec scenario — one th choice at slider 30 and
one he choice at slider 50 in the same group yields winner he with
score 0.1. -/
theorem claim_C1_witness :
    ∃ s, determineScore [rowSplitTH, rowSplitHE] = some s ∧
      s.chosen_bigram_winner = "he" ∧ s.score = some (1/10) := by
  obtain ⟨s, hs, hw, _, hsc⟩ :=
    claim_C1_split_case [rowSplitTH, rowSplitHE] rowSplitTH [rowSplitHE]
      rfl (by decide) (by decide)
  have h1 : ("th" : String) ≠ "he" := by decide
  have h2 : ("he" : String) ≠ "th" := by decide
  refine ⟨s, hs, ?_, ?_⟩
  · rw [hw]
    norm_num [absSumFor, rowSplitTH, rowSplitHE, h1, h2]
  · rw [hsc]
    norm_num [absSumFor, rowSplitTH, rowSplitHE, h1, h2]

/-- C2: in the unanimous case (one distinct chosen bigram in the
group), `determine_score` declares the chosen bigram the winner, the
other canonical bigram the loser, and scores the median of
`|sliderValue|` over the non-missing values divided by 100. -/
theorem claim_C2_unanimous_case (g : List BDRow) (g0 : BDRow) (rest : List BDRow)
    (hg : g = g0 :: rest)
    (huna : ((g.map (fun r => r.chosen_bigram)).dedup).length = 1) :
    ∃ s, determineScore g = some s ∧
      s.chosen_bigram_winner = g0.chosen_bigram ∧
      s.unchosen_bigram_winner =
        (if g0.chosen_bigram = g0.bigram1 then g0.bigram2 else g0.bigram1) ∧
      s.score = (npMedian ((g.filterMap (fun r => r.sliderValue)).map
                    (fun x => |x|))).map (fun m => m / 100) := by
  subst hg
  have hu : (decide (((((g0 :: rest)).map (fun r => r.chosen_bigram)).dedup).length = 1))
      = true := by rw [huna]; rfl
  refine ⟨_, rfl, ?_, ?_, ?_⟩
  · simp only [hu, if_true]
  · simp only [hu, if_true]
  · simp only [hu, if_true]

/-- C2 (witness): the spec scenario — th chosen both times over he at
sliders -40 and -60 yields winner th, loser he, and score
median(40, 60) / 100 = 0.5. -/
theorem claim_C2_witness :
    ∃ s, determineScore [rowUnanTH1, rowUnanTH2] = some s ∧
      s.chosen_bigram_winner = "th" ∧ s.unchosen_bigram_winner = "he" ∧
      s.score = some (1/2) := by
  obtain ⟨s, hs, hw, hl, hsc⟩ :=
    claim_C2_unanimous_case [rowUnanTH1, rowUnanTH2] rowUnanTH1 [rowUnanTH2]
      rfl (by decide)
  refine ⟨s, hs, ?_, ?_, ?_⟩
  · rw [hw]; rfl
  · rw [hl]; decide
  · rw [hsc]
    norm_num [rowUnanTH1, rowUnanTH2, rowSplitTH, npMedian, sortQ, insertSorted,
      List.filterMap_cons]

/-- C7 (amended): a group with zero non-missing slider measurements
never raises: in the unanimous case `determine_score` yields a missing
(`NaN`) score, but in the split case it yields the present score `0`
(the empty sums give `|0 - 0| / n / 100`). -/
theorem claim_C7_empty_measurements (g : List BDRow) (g0 : BDRow) (rest : List BDRow)
    (hg : g = g0 :: rest)
    (hempty : g.filterMap (fun r => r.sliderValue) = []) :
    ∃ s, determineScore g = some s ∧
      s.score = (if ((g.map (fun r => r.chosen_bigram)).dedup).length = 1 then none
                 else some 0) := by
  subst hg
  have hnone : ∀ r ∈ g0 :: rest, r.sliderValue = none :=
    List.filterMap_eq_nil_iff.mp hempty
  refine ⟨_, rfl, ?_⟩
  by_cases hcase : ((((g0 :: rest)).map (fun r => r.chosen_bigram)).dedup).length = 1
  · have hu : (decide (((((g0 :: rest)).map (fun r => r.chosen_bigram)).dedup).length = 1))
        = true := by rw [hcase]; rfl
    simp only [hu, if_true, hcase, hempty, List.map_nil, npMedian, List.length_nil,
      if_true, Option.map_none']
    rfl
  · have hu : (decide (((((g0 :: rest)).map (fun r => r.chosen_bigram)).dedup).length = 1))
        = false := decide_eq_false hcase
    rw [if_neg hcase]
    simp only [hu, Bool.false_eq_true, if_false,
      absSumFor_of_none hnone, sub_zero, abs_zero, zero_div]

/-- C7 (witness): a concrete split group whose two slider values are
both missing resolves, without raising, to the present score `0`. -/
theorem claim_C7_witness :
    ∃ s, determineScore [rowNoSliderTH, rowNoSliderHE] = some s ∧ s.score = some 0 := by
  obtain ⟨s, hs, hsc⟩ :=
    claim_C7_empty_measurements [rowNoSliderTH, rowNoSliderHE] rowNoSliderTH
      [rowNoSliderHE] rfl (by decide)
  refine ⟨s, hs, ?_⟩
  rw [hsc]
  decide

/-- C7 (counterexample): a concrete (user, pair) group with zero
non-missing slider measurements for which `determine_score` returns the
present score `0`, not a missing/NaN value, refuting the claim that
every such group yields a missing score. -/
theorem claim_C7_counterexample :
    ([rowNoSliderTH, rowNoSliderHE].filterMap (fun r => r.sliderValue)) = [] ∧
    (determineScore [rowNoSliderTH, rowNoSliderHE]).map (fun s => s.score)
      = some (some 0) := by
  have h1 : ("th" : String) ≠ "he" := by decide
  have h2 : ("he" : String) ≠ "th" := by decide
  constructor
  · rfl
  · norm_num [determineScore, absSumFor, rowNoSliderTH, rowNoSliderHE,
      rowSplitTH, rowSplitHE, h1, h2]

/-- Reducing a list of present options recovers the values. -/
theorem reduceOption_map_some (l : List ℚ) : (l.map some).reduceOption = l := by
  induction l with
  | nil => rfl
  | cons x t ih => rw [List.map_cons, List.reduceOption_cons_of_some, ih]

/-- A list of present options has no missing entry. -/
theorem any_isNone_map_some (l : List ℚ) :
    (l.map some).any (fun x => x.isNone) = false := by
  induction l with
  | nil => rfl
  | cons x t ih => simp [ih]

/-- Mapping a function inside the options does not change which entries
are missing. -/
theorem any_isNone_score_map (g : List ScoredRow) (f : ℚ → ℚ) :
    (g.map (fun r => r.score.map f)).any (fun x => x.isNone)
      = (g.map (fun r => r.score)).any (fun x => x.isNone) := by
  induction g with
  | nil => rfl
  | cons r t ih => simp [ih]

/-- When every contributing score is present, the float sum of the split
case of `determine_winner` is the clean rational sum. -/
theorem optAbsSum_scoresFor (b : String) (g : List ScoredRow)
    (hall : ∀ r ∈ g, (r.score).isSome = true) :
    optAbsSum (scoresFor b g) = some (cleanAbsSumFor b g) := by
  have hnone : (scoresFor b g).any (fun x => x.isNone) = false := by
    rw [List.any_eq_false]
    intro x hx
    rcases List.mem_map.mp hx with ⟨r, hr, hxr⟩
    have := hall r (List.mem_filter.mp hr).1
    rw [← hxr]
    simp only [Bool.not_eq_true, Option.isNone_eq_false_iff]
    exact this
  unfold optAbsSum
  rw [hnone]
  simp only [Bool.false_eq_true, if_false, Option.some_inj]
  unfold cleanAbsSumFor scoresFor
  congr 1
  have : ∀ (l : List ScoredRow), (∀ r ∈ l, (r.score).isSome = true) →
      (l.map (fun r => r.score)).reduceOption = l.filterMap (fun r => r.score) := by
    intro l
    induction l with
    | nil => intro _; rfl
    | cons r t ih =>
        intro h
        obtain ⟨x, hx⟩ := Option.isSome_iff_exists.mp (h r (List.mem_cons_self r t))
        rw [List.map_cons, List.filterMap_cons, hx,
          List.reduceOption_cons_of_some, ih (fun a ha => h a (List.mem_cons_of_mem r ha))]
  rw [this _ (fun r hr => hall r (List.mem_filter.mp hr).1)]

/-- When every contributing score is present, the signed option list of
the split case of `determine_winner` is the clean signed list. -/
theorem signedOptList_eq_clean (b1 b2 : String) (g : List ScoredRow)
    (hall : ∀ r ∈ g, (r.score).isSome = true) :
    signedOptList b1 b2 g = (cleanSigned b1 b2 g).map some := by
  induction g with
  | nil => rfl
  | cons r t ih =>
      obtain ⟨x, hx⟩ := Option.isSome_iff_exists.mp (hall r (List.mem_cons_self r t))
      have ht := ih (fun a ha => hall a (List.mem_cons_of_mem r ha))
      unfold signedOptList cleanSigned
      unfold signedOptList cleanSigned at ht
      rw [List.filterMap_cons, List.filterMap_cons]
      simp only [hx]
      by_cases h1 : r.chosen_bigram_winner = b1
      · simp only [eq_true h1, if_true, Option.map_some', List.map_cons]
        rw [ht]
      · by_cases h2 : r.chosen_bigram_winner = b2
        · simp only [eq_false h1, eq_true h2, if_false, if_true, Option.map_some',
            List.map_cons]
          rw [ht]
        · simp only [eq_false h1, eq_false h2, if_false]
          exact ht

/-- Mad of an all-present option list is the clean MAD. -/
theorem madOpt_map_some (l : List ℚ) : madOpt (l.map some) = madList l := by
  unfold madOpt
  rw [any_isNone_map_some, reduceOption_map_some]
  simp

/-- C3: in the split case of `determine_winner` (differing per-user
winners), with all contributed scores present, the winner is the
canonical bigram with the larger sum of `|score|` over its rows, an
exact tie going to `bigram1`; `median_score` is `|sum1 - sum2|` divided
by the number of contributing rows; and `mad_score` is the median
absolute deviation of the signed list keeping `bigram1`-won scores
positive and negating `bigram2`-won scores. -/
theorem claim_C3_split_verdict (g : List ScoredRow) (g0 : ScoredRow)
    (rest : List ScoredRow) (hg : g = g0 :: rest)
    (hsplit : ¬((g.map (fun r => r.chosen_bigram_winner)).dedup).length = 1)
    (hall : ∀ r ∈ g, (r.score).isSome = true) :
    ∃ v, determineWinner g = some v ∧
      v.winner_bigram =
        (if cleanAbsSumFor g0.bigram1 g ≥ cleanAbsSumFor g0.bigram2 g then g0.bigram1
         else g0.bigram2) ∧
      (cleanAbsSumFor g0.bigram1 g = cleanAbsSumFor g0.bigram2 g →
        v.winner_bigram = g0.bigram1) ∧
      v.median_score = some (|cleanAbsSumFor g0.bigram1 g - cleanAbsSumFor g0.bigram2 g|
                               / (g.length : ℚ)) ∧
      v.mad_score = madList (cleanSigned g0.bigram1 g0.bigram2 g) := by
  subst hg
  have hs1 := optAbsSum_scoresFor g0.bigram1 (g0 :: rest) hall
  have hs2 := optAbsSum_scoresFor g0.bigram2 (g0 :: rest) hall
  have hsl := signedOptList_eq_clean g0.bigram1 g0.bigram2 (g0 :: rest) hall
  simp only [determineWinner]
  rw [if_neg hsplit, hs1, hs2, hsl, madOpt_map_some]
  simp only [Option.map_some', optSub, nanGe]
  refine ⟨_, rfl, ?_, ?_, ?_, ?_⟩
  · by_cases hge : cleanAbsSumFor g0.bigram1 (g0 :: rest) ≥ cleanAbsSumFor g0.bigram2 (g0 :: rest)
    · rw [if_pos hge, if_pos (decide_eq_true hge)]
    · rw [if_neg hge, if_neg (by simp [hge])]
  · intro heq
    rw [if_pos (decide_eq_true (ge_of_eq heq))]
  · rfl
  · rfl

/-- C3 (witness): a concrete split pair group — user scores 0.2 toward
ab and 0.4 toward cd — resolves to winner cd with
`median_score = |0.2 - 0.4| / 2 = 0.1`. -/
theorem claim_C3_witness :
    ∃ v, determineWinner [scoredSplitA, scoredSplitB] = some v ∧
      v.winner_bigram = "cd" ∧ v.median_score = some (1/10) := by
  obtain ⟨v, hv, hw, _, hm, _⟩ :=
    claim_C3_split_verdict [scoredSplitA, scoredSplitB] scoredSplitA [scoredSplitB]
      rfl (by decide) (by decide)
  have h1 : ("ab" : String) ≠ "cd" := by decide
  have h2 : ("cd" : String) ≠ "ab" := by decide
  have ha : |(1:ℚ)/5| = 1/5 := abs_of_nonneg (by norm_num)
  have hb : |(2:ℚ)/5| = 2/5 := abs_of_nonneg (by norm_num)
  have hc : |(1:ℚ)/5 - 2/5| = 1/5 := by
    have hd : (1:ℚ)/5 - 2/5 = -(1/5) := by norm_num
    rw [hd, abs_neg, ha]
  refine ⟨v, hv, ?_, ?_⟩
  · rw [hw]
    norm_num [cleanAbsSumFor, scoredSplitA, scoredSplitB, scoredPresent, h1, h2,
      List.filterMap_cons, List.filterMap_nil, ha, hb]
  · rw [hm]
    norm_num [cleanAbsSumFor, scoredSplitA, scoredSplitB, scoredPresent, h1, h2,
      List.filterMap_cons, List.filterMap_nil, ha, hb, hc]

/-- A missing score among the rows won by `b` makes the Python sum of
the split case of `determine_winner` `NaN`. -/
theorem optAbsSum_none_of_mem {b : String} {g : List ScoredRow} {r0 : ScoredRow}
    (hr0 : r0 ∈ g) (hw : r0.chosen_bigram_winner = b) (hs : r0.score = none) :
    optAbsSum (scoresFor b g) = none := by
  have hmem : (none : Option ℚ) ∈ scoresFor b g := by
    rw [← hs]
    exact List.mem_map_of_mem _ (List.mem_filter.mpr ⟨hr0, by simp [hw]⟩)
  unfold optAbsSum
  rw [if_pos (List.any_eq_true.mpr ⟨none, hmem, rfl⟩)]

/-- A missing score on a row won by either canonical bigram puts a
missing entry into the signed list of the split case, so its MAD is
missing. -/
theorem madOpt_signed_none {b1 b2 : String} {g : List ScoredRow} {r0 : ScoredRow}
    (hr0 : r0 ∈ g)
    (hw : r0.chosen_bigram_winner = b1 ∨ r0.chosen_bigram_winner = b2)
    (hs : r0.score = none) :
    madOpt (signedOptList b1 b2 g) = none := by
  have hfr : (if r0.chosen_bigram_winner = b1
        then some (r0.score.map (fun x => |x|))
        else if r0.chosen_bigram_winner = b2
        then some (r0.score.map (fun x => -|x|))
        else none) = some none := by
    by_cases hb1 : r0.chosen_bigram_winner = b1
    · rw [if_pos hb1, hs]
      rfl
    · rcases hw with hw | hw
      · exact absurd hw hb1
      · rw [if_neg hb1, if_pos hw, hs]
        rfl
  have hmem : (none : Option ℚ) ∈ signedOptList b1 b2 g :=
    List.mem_filterMap.mpr ⟨r0, hr0, hfr⟩
  unfold madOpt
  rw [if_pos (List.any_eq_true.mpr ⟨none, hmem, rfl⟩)]

/-- C6 (amended): `determine_winner` does not skip missing values: for
every nonempty pair group whose per-user winners are among the group's
canonical bigrams, one missing contributed score makes both
`median_score` and `mad_score` missing — in the unanimous case through
the `NaN`-propagating median and MAD, and in the split case through the
`NaN`-poisoned sums, the comparison, and the signed list — unlike the
skip-missing aggregations of `determine_score`. -/
theorem claim_C6_nan_propagates (g : List ScoredRow) (g0 : ScoredRow)
    (rest : List ScoredRow) (hg : g = g0 :: rest)
    (hwf : ∀ r ∈ g, r.chosen_bigram_winner = g0.bigram1 ∨
             r.chosen_bigram_winner = g0.bigram2)
    (r0 : ScoredRow) (hr0 : r0 ∈ g) (hs : r0.score = none) :
    ∃ v, determineWinner g = some v ∧ v.median_score = none ∧ v.mad_score = none := by
  subst hg
  have hmiss : ((g0 :: rest).map (fun r => r.score)).any (fun x => x.isNone) = true :=
    List.any_eq_true.mpr ⟨r0.score, List.mem_map_of_mem _ hr0, by rw [hs]; rfl⟩
  have habs : ((g0 :: rest).map (fun r => r.score.map (fun x => |x|))).any
      (fun x => x.isNone) = true := by
    rw [any_isNone_score_map]
    exact hmiss
  simp only [determineWinner]
  by_cases hdl : (((g0 :: rest).map (fun r => r.chosen_bigram_winner)).dedup).length = 1
  · obtain ⟨w0, hw0⟩ := List.length_eq_one.mp hdl
    have hw0mem : w0 ∈ ((g0 :: rest).map (fun r => r.chosen_bigram_winner)).dedup := by
      rw [hw0]
      exact List.mem_singleton_self _
    obtain ⟨r1, hr1, hr1w⟩ := List.mem_map.mp (List.mem_dedup.mp hw0mem)
    have hwor : w0 = g0.bigram1 ∨ w0 = g0.bigram2 := hr1w ▸ hwf r1 hr1
    rw [if_pos hdl, hw0]
    simp only [List.headD_cons]
    by_cases hb1 : w0 = g0.bigram1
    · rw [if_pos hb1]
      simp only [Option.map_some']
      refine ⟨_, rfl, ?_, ?_⟩
      · show npMedianOpt ((g0 :: rest).map (fun r => r.score.map (fun x => |x|))) = none
        unfold npMedianOpt
        rw [habs]
        simp
      · show madOpt ((g0 :: rest).map (fun r => r.score.map (fun x => |x|))) = none
        unfold madOpt
        rw [habs]
        simp
    · have hb2 : w0 = g0.bigram2 := hwor.resolve_left hb1
      rw [if_neg hb1, if_pos hb2]
      simp only [Option.map_some']
      refine ⟨_, rfl, ?_, ?_⟩
      · show npMedianOpt ((g0 :: rest).map (fun r => r.score.map (fun x => |x|))) = none
        unfold npMedianOpt
        rw [habs]
        simp
      · show madOpt ((g0 :: rest).map (fun r => r.score.map (fun x => |x|))) = none
        unfold madOpt
        rw [habs]
        simp
  · rw [if_neg hdl]
    simp only [Option.map_some']
    refine ⟨_, rfl, ?_, ?_⟩
    · show (optSub (optAbsSum (scoresFor g0.bigram1 (g0 :: rest)))
              (optAbsSum (scoresFor g0.bigram2 (g0 :: rest)))).map
          (fun d => |d| / ((g0 :: rest).length : ℚ)) = none
      rcases hwf r0 hr0 with hb | hb
      · rw [optAbsSum_none_of_mem hr0 hb hs]
        rcases optAbsSum (scoresFor g0.bigram2 (g0 :: rest)) with _ | y <;> rfl
      · rw [optAbsSum_none_of_mem hr0 hb hs]
        rcases optAbsSum (scoresFor g0.bigram1 (g0 :: rest)) with _ | y <;> rfl
    · show madOpt (signedOptList g0.bigram1 g0.bigram2 (g0 :: rest)) = none
      exact madOpt_signed_none hr0 (hwf r0 hr0) hs

/-- C6 (witness): a concrete pair group with one present and one
missing contributed score yields missing `median_score` and
`mad_score`. -/
theorem claim_C6_witness :
    ∃ v, determineWinner [scoredPresent, scoredMissing] = some v ∧
      v.median_score = none ∧ v.mad_score = none :=
  claim_C6_nan_propagates [scoredPresent, scoredMissing] scoredPresent
    [scoredMissing] rfl (by decide) scoredMissing
    (List.mem_cons_of_mem _ (List.mem_cons_self _ _)) rfl

/-- C6 (counterexample): for a concrete pair group holding contributed
scores 0.3 and missing, `determine_winner` returns a missing
`median_score`, while the skip-missing median of the present scores is
0.3 — the Global Winner Resolver does not skip absent values. -/
theorem claim_C6_counterexample :
    (determineWinner [scoredPresent, scoredMissing]).map (fun v => v.median_score)
      = some none ∧
    npMedian ((([scoredPresent, scoredMissing].map (fun r => r.score)).reduceOption).map
        (fun x => |x|)) = some (3/10) := by
  constructor
  · rfl
  · norm_num [npMedian, sortQ, insertSorted, scoredPresent, scoredMissing,
      List.reduceOption_cons_of_some, List.reduceOption_cons_of_none]

/-- Both split-case sums of `determine_score` are nonnegative. -/
theorem absSumFor_nonneg (b : String) (g : List BDRow) : 0 ≤ absSumFor b g := by
  induction g with
  | nil => exact le_refl 0
  | cons r t ih =>
      unfold absSumFor
      refine add_nonneg ?_ ih
      by_cases hc : r.chosen_bigram = b
      · simp only [hc, if_true]
        cases r.sliderValue with
        | none => exact le_refl 0
        | some x => exact abs_nonneg x
      · simp [hc]

/-- The two split-case sums over distinct bigrams are jointly bounded by
the total of `|sliderValue|` over the group. -/
theorem absSumFor_pair_le {b1 b2 : String} (hne : b1 ≠ b2) (g : List BDRow) :
    absSumFor b1 g + absSumFor b2 g ≤ absSliderTotal g := by
  induction g with
  | nil => simp [absSumFor, absSliderTotal]
  | cons r t ih =>
      unfold absSumFor absSliderTotal
      have hT : (0:ℚ) ≤ (match r.sliderValue with | some x => |x| | none => 0) := by
        cases r.sliderValue with
        | none => exact le_refl 0
        | some x => exact abs_nonneg x
      by_cases h1 : r.chosen_bigram = b1
      · have h2 : ¬ r.chosen_bigram = b2 := fun h => hne (h1.symm.trans h)
        simp only [eq_true h1, if_true, eq_false h2, if_false]
        linarith
      · by_cases h2 : r.chosen_bigram = b2
        · simp only [eq_false h1, if_false, eq_true h2, if_true]
          linarith
        · simp only [eq_false h1, if_false, eq_false h2]
          linarith

/-- With every slider present and within the slider range, the group
total of `|sliderValue|` is at most `100 ·` the group size. -/
theorem absSliderTotal_le {g : List BDRow}
    (hall : ∀ r ∈ g, ∃ x, r.sliderValue = some x ∧ -100 ≤ x ∧ x ≤ 100) :
    absSliderTotal g ≤ 100 * (g.length : ℚ) := by
  induction g with
  | nil => simp [absSliderTotal]
  | cons r t ih =>
      obtain ⟨x, hx, hlo, hhi⟩ := hall r (List.mem_cons_self r t)
      have ht := ih (fun a ha => hall a (List.mem_cons_of_mem r ha))
      unfold absSliderTotal
      rw [hx]
      have hax : |x| ≤ 100 := abs_le.mpr ⟨hlo, hhi⟩
      rw [List.length_cons]
      push_cast
      linarith

/-- C8: for every scored row produced from a nonempty group whose slider
values are all present and within [-100, 100], the score is present and
satisfies `0 ≤ score ≤ 1`, in both the unanimous and the split case. -/
theorem claim_C8_score_bounded (g : List BDRow) (g0 : BDRow) (rest : List BDRow)
    (hg : g = g0 :: rest)
    (hall : ∀ r ∈ g, ∃ x, r.sliderValue = some x ∧ -100 ≤ x ∧ x ≤ 100) :
    ∃ s q, determineScore g = some s ∧ s.score = some q ∧ 0 ≤ q ∧ q ≤ 1 := by
  subst hg
  by_cases hcase : ((((g0 :: rest)).map (fun r => r.chosen_bigram)).dedup).length = 1
  · have hu : (decide (((((g0 :: rest)).map (fun r => r.chosen_bigram)).dedup).length = 1))
        = true := by rw [hcase]; rfl
    have hlen : (((g0 :: rest)).filterMap (fun r => r.sliderValue)).length
        = (g0 :: rest).length :=
      filterMap_length_of_all_some (fun a ha => (hall a ha).imp (fun x hx => hx.1))
    have hne : ((((g0 :: rest)).filterMap (fun r => r.sliderValue)).map (fun x => |x|)) ≠ [] := by
      intro hcontra
      have := congrArg List.length hcontra
      rw [List.length_map, hlen] at this
      simp at this
    obtain ⟨m, hm⟩ := npMedian_isSome hne
    have hb : ∀ y ∈ (((g0 :: rest)).filterMap (fun r => r.sliderValue)).map (fun x => |x|),
        (0:ℚ) ≤ y ∧ y ≤ 100 := by
      intro y hy
      rcases List.mem_map.mp hy with ⟨x, hx, hyx⟩
      rcases List.mem_filterMap.mp hx with ⟨r, hr, hrx⟩
      obtain ⟨x2, hx2, hlo, hhi⟩ := hall r hr
      rw [hx2] at hrx
      have hxx : x2 = x := Option.some_inj.mp hrx
      subst hxx
      subst hyx
      exact ⟨abs_nonneg x2, abs_le.mpr ⟨hlo, hhi⟩⟩
    obtain ⟨hm0, hm100⟩ := npMedian_bounds hb hm
    refine ⟨_, m / 100, rfl, ?_, ?_, ?_⟩
    · simp only [hu, if_true]
      rw [hm]
      rfl
    · positivity
    · rw [div_le_one (by norm_num)]
      linarith
  · have hu : (decide (((((g0 :: rest)).map (fun r => r.chosen_bigram)).dedup).length = 1))
        = false := decide_eq_false hcase
    have hn1 : (1:ℚ) ≤ ((g0 :: rest).length : ℚ) := by
      rw [List.length_cons]
      push_cast
      linarith [Nat.cast_nonneg (α := ℚ) rest.length]
    have hnpos : (0:ℚ) < ((g0 :: rest).length : ℚ) := lt_of_lt_of_le zero_lt_one hn1
    have hq1 : |absSumFor g0.bigram1 (g0 :: rest) - absSumFor g0.bigram2 (g0 :: rest)|
        / ((g0 :: rest).length : ℚ) / 100 ≤ 1 := by
      by_cases hbb : g0.bigram1 = g0.bigram2
      · rw [hbb, sub_self, abs_zero, zero_div, zero_div]
        norm_num
      · have hpair := absSumFor_pair_le hbb (g0 :: rest)
        have htot := absSliderTotal_le hall
        have h1 := absSumFor_nonneg g0.bigram1 (g0 :: rest)
        have h2 := absSumFor_nonneg g0.bigram2 (g0 :: rest)
        have habs : |absSumFor g0.bigram1 (g0 :: rest) - absSumFor g0.bigram2 (g0 :: rest)|
            ≤ 100 * ((g0 :: rest).length : ℚ) := by
          rw [abs_le]
          constructor <;> linarith
        rw [div_div, div_le_one (by positivity)]
        linarith
    refine ⟨_, _, rfl, ?_, ?_, hq1⟩
    · simp only [hu, Bool.false_eq_true, if_false]
    · positivity

/-- C8 (witness): the concrete split group with sliders 30 and 50 has a
present score within [0, 1]. -/
theorem claim_C8_witness :
    ∃ s q, determineScore [rowSplitTH, rowSplitHE] = some s ∧
      s.score = some q ∧ 0 ≤ q ∧ q ≤ 1 := by
  refine claim_C8_score_bounded [rowSplitTH, rowSplitHE] rowSplitTH [rowSplitHE] rfl ?_
  intro r hr
  rcases List.mem_cons.mp hr with rfl | hr2
  · exact ⟨30, rfl, by norm_num, by norm_num⟩
  · rcases List.mem_cons.mp hr2 with rfl | hr3
    · exact ⟨50, rfl, by norm_num, by norm_num⟩
    · cases hr3

/-- C5 (counterexample): in a concrete (user, pair) group where the user
chose fr once and vr once over the easy-choice pair (fr, vr), the two
rows disagree on both flags, refuting per-group invariance of
`is_probable`/`is_improbable`. -/
theorem claim_C5_counterexample :
    obsProbFR.user_id = obsImprVR.user_id ∧
    stdPair obsProbFR.chosenBigram obsProbFR.unchosenBigram
      = stdPair obsImprVR.chosenBigram obsImprVR.unchosenBigram ∧
    (rowOf [obsProbFR, obsImprVR] easyFV obsProbFR).is_probable = true ∧
    (rowOf [obsProbFR, obsImprVR] easyFV obsImprVR).is_probable = false ∧
    (rowOf [obsProbFR, obsImprVR] easyFV obsProbFR).is_improbable = false ∧
    (rowOf [obsProbFR, obsImprVR] easyFV obsImprVR).is_improbable = true := by
  decide

end BigramExp
